import Mathlib

/-!
Verification of the `flask-request-id-header` middleware
(`flask_request_id_header/middleware/__init__.py`).

Strings are embedded as `List Char`.  The middleware's methods
`_compute_request_id_header`, `_request_id_unique`, `_generate_request_id`,
`__init__` and `__call__` are embedded as `computeRequestIdHeader`,
`requestIdUnique`, `generateRequestId`, `RequestID.init` and `RequestID.call`.

The uniqueness test in the source calls Python's `uuid.UUID(request_id,
version=4)` inside a `try`/`except ValueError`.  Python's `UUID` constructor
with a `hex` argument removes every occurrence of the substrings `urn:` and
`uuid:`, strips `{`/`}` characters from both ends, removes every `-`, requires
the remainder to be exactly 32 characters accepted by `int(_, 16)`, and — when
a `version` argument is given — REPLACES the variant and version bits rather
than validating them.  This behaviour of the external library is embedded
below as `pyUuidAccepts` (acceptance) and, for the generator
`str(uuid.uuid4())`, as `generateRequestId` over a 128-bit entropy parameter.
`int(_, 16)` is modelled for ASCII input: optional surrounding whitespace, an
optional sign, an optional `0x`/`0X` base marker, and hexadecimal digits with
single underscores allowed between digits.
-/

/-- Comparison of a pattern with the front of a list: `leadsWith p s` is true
iff `p` is an initial segment of `s` (used to embed Python substring search). -/
def leadsWith : List Char → List Char → Bool
  | [], _ => true
  | _ :: _, [] => false
  | a :: ps, b :: ss => a == b && leadsWith ps ss

/-- Python's `pat in s` substring test: true iff `p` occurs contiguously in
`s`.  The empty pattern occurs in every string, as in Python. -/
def containsSub (p : List Char) : List Char → Bool
  | [] => p.isEmpty
  | c :: rest => leadsWith p (c :: rest) || containsSub p rest

/-- Worker for `removeSub`, structurally recursive on a fuel argument so that
it reduces inside the kernel; one unit of fuel is spent per consumed leading
character, so fuel `s.length` always suffices. -/
def removeSubAux (pat : List Char) : Nat → List Char → List Char
  | 0, s => s
  | _ + 1, [] => []
  | fuel + 1, c :: rest =>
    if leadsWith pat (c :: rest) then
      removeSubAux pat fuel (List.drop (pat.length - 1) rest)
    else
      c :: removeSubAux pat fuel rest

/-- Python's `s.replace(pat, '')` for a non-empty `pat`: remove every
left-to-right non-overlapping occurrence of `pat` from `s`.  For an empty
pattern the string is returned unchanged (the source only removes the
non-empty patterns `urn:`, `uuid:` and `-`). -/
def removeSub (pat : List Char) (s : List Char) : List Char :=
  match pat with
  | [] => s
  | _ :: _ => removeSubAux pat s.length s

/-- Python's `s.strip(chars)`: drop characters satisfying `p` from both ends. -/
def stripEnds (p : Char → Bool) (s : List Char) : List Char :=
  ((s.dropWhile p).reverse.dropWhile p).reverse

/-- Python's `s.split(sep)` for a one-character separator: split on every
occurrence of `c`, keeping empty pieces (so the result is never empty and
splitting the empty string yields `[[]]`, like `''.split(',') == ['']`). -/
def splitOnCh (c : Char) : List Char → List (List Char)
  | [] => [[]]
  | a :: rest =>
    match splitOnCh c rest with
    | [] => [[]]
    | t :: ts => if a == c then [] :: t :: ts else (a :: t) :: ts

/-- Inverse of `splitOnCh`: interleave the separator back between the pieces. -/
def joinCh (c : Char) : List (List Char) → List Char
  | [] => []
  | [x] => x
  | x :: y :: ys => x ++ c :: joinCh c (y :: ys)

/-- Lowercase hexadecimal digit for a value below 16, as produced by Python's
`'%x'` formatting. -/
def hexChar (d : Nat) : Char :=
  if d < 10 then Char.ofNat (48 + d) else Char.ofNat (87 + d)

/-- Big-endian, zero-padded, lowercase hexadecimal rendering of `n` to exactly
`w` digits, as produced by Python's `'%0{w}x' % n` for values below `16^w`. -/
def toHexBE : Nat → Nat → List Char
  | 0, _ => []
  | w + 1, n => toHexBE w (n / 16) ++ [hexChar (n % 16)]

/-- Overwrite the base-`m` field of `x` that sits at place value `p` with `v`:
arithmetic form of the clear-then-set bit surgery `x &= ~(mask); x |= v << k`
performed by Python's `uuid.UUID.__init__` on the variant and version fields. -/
def setNib (x p m v : Nat) : Nat :=
  x - x / p % m * p + v * p

/-- The 128-bit integer of `uuid.uuid4()` built from 16 random bytes `r`:
the variant field (bits 62-63) is forced to `10` and the version field
(bits 76-79) is forced to `4`, exactly as `UUID(bytes=..., version=4)` does. -/
def uuid4Int (r : Nat) : Nat :=
  setNib (setNib (r % 2 ^ 128) (2 ^ 62) 4 2) (2 ^ 76) 16 4

/-- Python's `str(uuid)`: the 32 lowercase hex digits of the 128-bit value in
the canonical `8-4-4-4-12` hyphenated layout. -/
def uuidStr (i : Nat) : List Char :=
  let h := toHexBE 32 i
  h.take 8 ++ '-' :: ((h.drop 8).take 4 ++ '-' :: ((h.drop 12).take 4 ++
    '-' :: ((h.drop 16).take 4 ++ '-' :: h.drop 20)))

/-- Embedding of `RequestID._generate_request_id`, i.e. `str(uuid4())`, with
the 16 random bytes drawn by `uuid4` made explicit as the parameter `r`. -/
def generateRequestId (r : Nat) : List Char :=
  uuidStr (uuid4Int r)

/-- The sixteen lowercase hexadecimal digit characters, `0`-`9` and `a`-`f`. -/
def lowerHexChars : List Char :=
  (List.range 16).map hexChar

/-- Membership in `lowerHexChars`, as a Boolean. -/
def isLowerHex (c : Char) : Bool :=
  decide (c ∈ lowerHexChars)

/-- Characters accepted as hexadecimal digits by Python's `int(_, 16)`: the
lowercase set together with the six uppercase letters. -/
def hexDigitChars : List Char :=
  lowerHexChars ++ ['A', 'B', 'C', 'D', 'E', 'F']

/-- Boolean test for membership in `hexDigitChars`. -/
def isHexDigitChar (c : Char) : Bool :=
  decide (c ∈ hexDigitChars)

/-- ASCII whitespace stripped by Python's `int` before parsing. -/
def pyIsWs (c : Char) : Bool :=
  decide (c ∈ [' ', '\t', '\n', '\r', Char.ofNat 11, Char.ofNat 12])

/-- The brace characters stripped from both ends by `uuid.UUID.__init__`. -/
def isBrace (c : Char) : Bool :=
  decide (c ∈ [Char.ofNat 123, Char.ofNat 125])

/-- Hexadecimal digit sequence continuation: digits with single underscores
allowed between digits, as in Python's integer literal grammar. -/
def hexTail : List Char → Bool
  | [] => true
  | [c] => isHexDigitChar c
  | c :: d :: rest =>
    if c == '_' then isHexDigitChar d && hexTail rest
    else isHexDigitChar c && hexTail (d :: rest)

/-- Non-empty hexadecimal digit sequence with single internal underscores. -/
def hexDigitsOk : List Char → Bool
  | [] => false
  | c :: rest => isHexDigitChar c && hexTail rest

/-- Digit sequence after a `0x` base marker: one leading underscore is
additionally allowed (`int('0x_ff', 16)` parses in Python). -/
def hexAfterBase : List Char → Bool
  | [] => false
  | c :: rest => if c == '_' then hexDigitsOk rest else hexDigitsOk (c :: rest)

/-- Drop one leading `+` or `-` sign, as Python's `int` does. -/
def dropSign : List Char → List Char
  | [] => []
  | c :: rest => if c == '+' || c == '-' then rest else c :: rest

/-- Does the list start with a `0x` or `0X` base marker? -/
def hasHexBase : List Char → Bool
  | a :: b :: _ => a == '0' && (b == 'x' || b == 'X')
  | _ => false

/-- Model of Python's `int(s, 16)` succeeding (ASCII input): optional
whitespace at both ends, an optional sign, an optional `0x`/`0X` marker, then
a non-empty run of hexadecimal digits with single underscores between them. -/
def pyIntHex16Valid (s : List Char) : Bool :=
  let t := dropSign (stripEnds pyIsWs s)
  if hasHexBase t then hexAfterBase (t.drop 2) else hexDigitsOk t

/-- The pattern `urn:` removed by `uuid.UUID.__init__`. -/
def urnChars : List Char := ['u', 'r', 'n', ':']

/-- The pattern `uuid:` removed by `uuid.UUID.__init__`. -/
def uuidMarkChars : List Char := ['u', 'u', 'i', 'd', ':']

/-- Acceptance of a string by Python's `uuid.UUID(s, version=4)`: remove every
`urn:` and `uuid:`, strip braces from both ends, remove every `-`, and require
exactly 32 characters forming a valid `int(_, 16)` input.  The `version=4`
argument never rejects anything — it overwrites the version and variant bits
of the accepted value — so acceptance does not depend on it. -/
def pyUuidAccepts (s : List Char) : Bool :=
  let h1 := removeSub uuidMarkChars (removeSub urnChars s)
  let h2 := removeSub ['-'] (stripEnds isBrace h1)
  h2.length == 32 && pyIntHex16Valid h2

/-- Embedding of `RequestID._request_id_unique`: true when the configured
prefix value is not `None` and occurs in the token as a substring, or when the
token is accepted by `UUID(request_id, version=4)` (the `try`/`except
ValueError` of the source is embedded by the total Boolean `pyUuidAccepts`;
a parse failure yields `false` rather than an error). -/
def requestIdUnique (requestId : List Char) (uniqueValuePfx : Option (List Char)) : Bool :=
  (match uniqueValuePfx with
   | some p => containsSub p requestId
   | none => false) || pyUuidAccepts requestId

/-- Embedding of `RequestID._compute_request_id_header`.  The entropy consumed
by the internal call to `_generate_request_id` is the explicit parameter `r`.
The source's for-loop returning `header_value` as soon as one split value
passes `_request_id_unique` is embedded with `List.any`. -/
def computeRequestIdHeader (uniqueValuePfx : Option (List Char)) (r : Nat)
    (headerValue : Option (List Char)) : List Char :=
  match headerValue with
  | none => generateRequestId r
  | some hv =>
    if (splitOnCh ',' hv).any (fun requestId => requestIdUnique requestId uniqueValuePfx) then
      hv
    else
      hv ++ ',' :: generateRequestId r

/-- The Flask config key `REQUEST_ID_UNIQUE_VALUE_PREFIX` read by `__init__`. -/
def configKeyChars : List Char :=
  ['R', 'E', 'Q', 'U', 'E', 'S', 'T', '_', 'I', 'D', '_', 'U', 'N', 'I', 'Q',
   'U', 'E', '_', 'V', 'A', 'L', 'U', 'E', '_', 'P', 'R', 'E', 'F', 'I', 'X']

/-- The header name `X-Request-ID` assigned to `self._header_name`. -/
def headerNameChars : List Char :=
  ['X', '-', 'R', 'e', 'q', 'u', 'e', 's', 't', '-', 'I', 'D']

/-- ASCII uppercasing of one character, as done by Python's `str.upper` on the
header name (which is pure ASCII). -/
def asciiUpper (c : Char) : Char :=
  if 'a' ≤ c && c ≤ 'z' then Char.ofNat (c.toNat - 32) else c

/-- Python's `.replace('-', '_')` on a single character. -/
def dashToUnderscore (c : Char) : Char :=
  if c == '-' then '_' else c

/-- The WSGI environ key `f"HTTP_{ name.upper().replace('-', '_') }"`. -/
def flaskHeaderNameOf (name : List Char) : List Char :=
  ['H', 'T', 'T', 'P', '_'] ++ (name.map asciiUpper).map dashToUnderscore

/-- The per-instance state stored by `RequestID.__init__`: the configured
unique-value prefix and the two header names. -/
structure RequestIDState where
  uniqueValuePfx : Option (List Char)
  headerName : List Char
  flaskHeaderName : List Char
deriving DecidableEq, Repr

/-- Embedding of `RequestID.__init__`.  The Flask config is a partial map from
keys to configured values (a configured value is `none` for Python `None` or
`some s` for a string); `app.config['REQUEST_ID_UNIQUE_VALUE_PREFIX']` raises
`KeyError` when the key is missing, embedded as `Except.error ()`.  The
re-wiring of `app.wsgi_app` is host plumbing and is not part of the state. -/
def RequestID.init (config : List Char → Option (Option (List Char))) :
    Except Unit RequestIDState :=
  match config configKeyChars with
  | none => Except.error ()
  | some v =>
    Except.ok
      { uniqueValuePfx := v
        headerName := headerNameChars
        flaskHeaderName := flaskHeaderNameOf headerNameChars }

/-- Embedding of the `new_start_response` closure defined inside
`RequestID.__call__`: append the `(header name, request id header)` pair to the
response headers, then delegate to the host's `start_response`. -/
def newStartResponse {σ ε : Type} (headerName requestIdHeader : List Char)
    (startResponse : List Char → List (List Char × List Char) → ε → σ) :
    List Char → List (List Char × List Char) → ε → σ :=
  fun status responseHeaders excInfo =>
    startResponse status (responseHeaders ++ [(headerName, requestIdHeader)]) excInfo

/-- Embedding of `RequestID.__call__`: compute the request id header from the
inbound environ value, store it back into the environ, and invoke the wrapped
application with the wrapping `new_start_response`.  The environ is a partial
map from keys to values; `r` is the entropy for a potential generation. -/
def RequestID.call {σ ρ ε : Type} (st : RequestIDState) (r : Nat)
    (app : (List Char → Option (List Char)) →
      (List Char → List (List Char × List Char) → ε → σ) → ρ)
    (environ : List Char → Option (List Char))
    (startResponse : List Char → List (List Char × List Char) → ε → σ) : ρ :=
  let requestIdHeader := computeRequestIdHeader st.uniqueValuePfx r (environ st.flaskHeaderName)
  let environ2 : List Char → Option (List Char) :=
    fun k => if k = st.flaskHeaderName then some requestIdHeader else environ k
  app environ2 (newStartResponse st.headerName requestIdHeader startResponse)

/-- Modelled from the spec: a token in canonical version-4 UUID textual form —
five lowercase hexadecimal groups of lengths 8, 4, 4, 4 and 12 separated by
hyphens, with version digit `4` and a variant digit among `8`, `9`, `a`, `b`
(the `xxxxxxxx-xxxx-4xxx-yxxx-xxxxxxxxxxxx` shape of spec section 4.1). -/
def specUuid4 (s : List Char) : Bool :=
  match splitOnCh '-' s with
  | [g1, g2, g3, g4, g5] =>
    g1.length == 8 && g2.length == 4 && g3.length == 4 && g4.length == 4 &&
    g5.length == 12 && (g1 ++ g2 ++ g3 ++ g4 ++ g5).all isLowerHex &&
    g3.headD ' ' == '4' &&
    (g4.headD ' ' == '8' || g4.headD ' ' == '9' || g4.headD ' ' == 'a' || g4.headD ' ' == 'b')
  | _ => false

/-- Modelled from the spec: the claims' classification of a unique token — a
valid version-4 UUID, or a token containing the configured prefix value. -/
def claimUnique (uniqueValuePfx : Option (List Char)) (t : List Char) : Bool :=
  specUuid4 t ||
    (match uniqueValuePfx with
     | some p => containsSub p t
     | none => false)

/-- Modelled from the spec: uniqueness in the sense of spec section 4.2 step 3
— a valid version-4 UUID, or a token containing a NON-EMPTY configured
prefix value as a substring. -/
def specUniqueToken (uniqueValuePfx : Option (List Char)) (t : List Char) : Bool :=
  specUuid4 t ||
    (match uniqueValuePfx with
     | some p => !p.isEmpty && containsSub p t
     | none => false)

/-- A concrete canonical version-4 UUID string, `deadbeef-dead-4ead-8ead-deadbeefdead`. -/
def sampleUuid4 : List Char :=
  ['d', 'e', 'a', 'd', 'b', 'e', 'e', 'f', '-', 'd', 'e', 'a', 'd', '-',
   '4', 'e', 'a', 'd', '-', '8', 'e', 'a', 'd', '-',
   'd', 'e', 'a', 'd', 'b', 'e', 'e', 'f', 'd', 'e', 'a', 'd']

/-- A canonical UUID string whose version digit is `1`, not `4`:
`00000000-0000-1000-8000-000000000000`. -/
def sampleV1Uuid : List Char :=
  ['0', '0', '0', '0', '0', '0', '0', '0', '-', '0', '0', '0', '0', '-',
   '1', '0', '0', '0', '-', '8', '0', '0', '0', '-',
   '0', '0', '0', '0', '0', '0', '0', '0', '0', '0', '0', '0']

/-- Thirty-two `0` digits with no hyphens: not a canonical UUID textual form,
yet accepted by Python's `UUID` constructor. -/
def sampleZeros32 : List Char :=
  List.replicate 32 '0'

/-! ### Basic lemmas about the string helpers -/

theorem containsSub_nil (s : List Char) : containsSub [] s = true := by
  cases s <;> simp [containsSub, leadsWith, List.isEmpty]

theorem leadsWith_mem {p s : List Char} (h : leadsWith p s = true) :
    ∀ c ∈ p, c ∈ s := by
  induction p generalizing s with
  | nil => intro c hc; cases hc
  | cons a ps ih =>
    cases s with
    | nil => simp [leadsWith] at h
    | cons b ss =>
      simp only [leadsWith, Bool.and_eq_true, beq_iff_eq] at h
      intro c hc
      rcases List.mem_cons.mp hc with hc | hc
      · exact hc ▸ h.1 ▸ List.mem_cons_self b ss
      · exact List.mem_cons_of_mem b (ih h.2 c hc)

theorem removeSubAux_no_op {pat s : List Char} {f : Nat}
    (h : ∃ c ∈ pat, c ∉ s) : removeSubAux pat f s = s := by
  induction f generalizing s with
  | zero => rfl
  | succ f ih =>
    cases s with
    | nil => rfl
    | cons c rest =>
      obtain ⟨c0, hc0p, hc0s⟩ := h
      have hlw : leadsWith pat (c :: rest) = false := by
        by_contra hne
        exact hc0s (leadsWith_mem (Bool.of_not_eq_false hne) c0 hc0p)
      simp only [removeSubAux, hlw, Bool.false_eq_true, if_false, List.cons.injEq, true_and]
      exact ih ⟨c0, hc0p, fun hm => hc0s (List.mem_cons_of_mem c hm)⟩

theorem removeSub_no_op {pat s : List Char} (h : ∃ c ∈ pat, c ∉ s) :
    removeSub pat s = s := by
  cases pat with
  | nil => rfl
  | cons p ps => exact removeSubAux_no_op h

theorem removeSubAux_singleton {a : Char} {s : List Char} {f : Nat}
    (h : s.length ≤ f) : removeSubAux [a] f s = s.filter (fun c => !(c == a)) := by
  induction f generalizing s with
  | zero =>
    have : s = [] := List.length_eq_zero.mp (Nat.le_zero.mp h)
    subst this; rfl
  | succ f ih =>
    cases s with
    | nil => rfl
    | cons c rest =>
      have hrest : rest.length ≤ f := by
        simpa [List.length_cons, Nat.succ_le_succ_iff] using h
      by_cases hac : a = c
      · subst hac
        simp only [removeSubAux, leadsWith, beq_self_eq_true, Bool.true_and, if_true,
          List.length_cons, List.length_nil, List.drop, List.filter_cons, beq_self_eq_true,
          Bool.not_true, Bool.false_eq_true, if_false]
        exact ih hrest
      · have hlw : leadsWith [a] (c :: rest) = false := by
          simp [leadsWith, beq_iff_eq, hac]
        have hca : (c == a) = false := by
          simp [beq_iff_eq]; exact fun hh => hac hh.symm
        simp only [removeSubAux, hlw, Bool.false_eq_true, if_false, List.filter_cons, hca,
          Bool.not_false, if_true, List.cons.injEq, true_and]
        exact ih hrest

theorem removeSub_singleton (a : Char) (s : List Char) :
    removeSub [a] s = s.filter (fun c => !(c == a)) :=
  removeSubAux_singleton (Nat.le_refl _)

theorem dropWhile_no_op {p : Char → Bool} {s : List Char}
    (h : ∀ c ∈ s, p c = false) : s.dropWhile p = s := by
  cases s with
  | nil => rfl
  | cons c rest => simp [List.dropWhile_cons, h c (List.mem_cons_self c rest)]

theorem stripEnds_no_op {p : Char → Bool} {s : List Char}
    (h : ∀ c ∈ s, p c = false) : stripEnds p s = s := by
  unfold stripEnds
  rw [dropWhile_no_op h]
  rw [dropWhile_no_op (fun c hc => h c (List.mem_reverse.mp hc))]
  exact List.reverse_reverse s

theorem splitOnCh_ne_nil (c : Char) (s : List Char) : splitOnCh c s ≠ [] := by
  cases s with
  | nil => simp [splitOnCh]
  | cons a rest =>
    cases h : splitOnCh c rest with
    | nil => simp [splitOnCh, h]
    | cons t ts =>
      simp only [splitOnCh, h]
      by_cases hac : a = c <;> simp [hac]

theorem splitOnCh_append (c : Char) (x y : List Char) :
    splitOnCh c (x ++ c :: y) = splitOnCh c x ++ splitOnCh c y := by
  induction x with
  | nil =>
    simp only [List.nil_append, splitOnCh]
    cases h : splitOnCh c y with
    | nil => exact absurd h (splitOnCh_ne_nil c y)
    | cons t ts => simp [splitOnCh, h]
  | cons a x ih =>
    cases h : splitOnCh c x with
    | nil => exact absurd h (splitOnCh_ne_nil c x)
    | cons t ts =>
      simp only [List.cons_append, splitOnCh, ih, h]
      by_cases hac : a = c <;> simp [hac] <;> rw [ih, h] <;> simp

theorem splitOnCh_no_sep {c : Char} {s : List Char}
    (h : ∀ a ∈ s, a ≠ c) : splitOnCh c s = [s] := by
  induction s with
  | nil => rfl
  | cons a rest ih =>
    have hrest : splitOnCh c rest = [rest] :=
      ih fun b hb => h b (List.mem_cons_of_mem a hb)
    have hac : (a == c) = false := by
      simp [beq_iff_eq]; exact h a (List.mem_cons_self a rest)
    simp [splitOnCh, hrest, hac]

theorem joinCh_splitOnCh (c : Char) (s : List Char) :
    joinCh c (splitOnCh c s) = s := by
  induction s with
  | nil => rfl
  | cons a rest ih =>
    cases h : splitOnCh c rest with
    | nil => exact absurd h (splitOnCh_ne_nil c rest)
    | cons t ts =>
      rw [h] at ih
      by_cases hac : a = c
      · subst hac
        simp only [splitOnCh, h, beq_self_eq_true, if_true, joinCh]
        simpa using ih
      · have : (a == c) = false := by simp [beq_iff_eq, hac]
        simp only [splitOnCh, h, this, Bool.false_eq_true, if_false]
        cases ts with
        | nil => simp only [joinCh] at ih ⊢; rw [ih]
        | cons u us =>
          simp only [joinCh] at ih ⊢
          rw [List.cons_append, ih]

/-! ### Helpers for list slicing -/

theorem take_append_len {α : Type} {a b : List α} {n : Nat} (h : a.length = n) :
    (a ++ b).take n = a := by
  subst h
  induction a with
  | nil => rfl
  | cons x xs ih => simp [List.take_cons, ih]

theorem drop_append_len {α : Type} {a b : List α} {n : Nat} (h : a.length = n) :
    (a ++ b).drop n = b := by
  subst h
  induction a with
  | nil => rfl
  | cons x xs ih => simp [ih]

theorem headD_append_ne_nil {a b : List Char} {d : Char} (h : a ≠ []) :
    (a ++ b).headD d = a.headD d := by
  cases a with
  | nil => exact absurd rfl h
  | cons x xs => rfl

/-! ### Character-class facts -/

theorem lowerHex_facts : ∀ c ∈ lowerHexChars,
    isHexDigitChar c = true ∧ pyIsWs c = false ∧ isBrace c = false ∧
    c ≠ ':' ∧ c ≠ '-' ∧ c ≠ ',' ∧ c ≠ '+' ∧ c ≠ 'x' ∧ c ≠ 'X' ∧ c ≠ '_' := by
  decide

theorem hexChar_mem_lowerHex : ∀ d, d < 16 → hexChar d ∈ lowerHexChars := by
  decide

theorem isLowerHex_iff {c : Char} : isLowerHex c = true ↔ c ∈ lowerHexChars := by
  unfold isLowerHex
  exact decide_eq_true_iff

/-! ### Facts about the hexadecimal rendering -/

theorem toHexBE_length : ∀ (w n : Nat), (toHexBE w n).length = w := by
  intro w
  induction w with
  | zero => intro n; rfl
  | succ w ih => intro n; simp [toHexBE, ih]

theorem toHexBE_mem : ∀ (w n : Nat), ∀ c ∈ toHexBE w n, c ∈ lowerHexChars := by
  intro w
  induction w with
  | zero => intro n c hc; cases hc
  | succ w ih =>
    intro n c hc
    rcases List.mem_append.mp hc with hc | hc
    · exact ih (n / 16) c hc
    · rw [List.mem_singleton.mp hc]
      exact hexChar_mem_lowerHex (n % 16) (Nat.mod_lt n (by norm_num))

theorem toHexBE_ne_nil (w n : Nat) (hw : 0 < w) : toHexBE w n ≠ [] := by
  intro h
  have := toHexBE_length w n
  rw [h] at this
  simp at this
  omega

theorem toHexBE_split (w1 w2 n : Nat) :
    toHexBE (w1 + w2) n = toHexBE w1 (n / 16 ^ w2) ++ toHexBE w2 (n % 16 ^ w2) := by
  induction w2 generalizing n with
  | zero => simp [toHexBE, Nat.pow_zero, Nat.div_one]
  | succ w2 ih =>
    have hl : w1 + (w2 + 1) = (w1 + w2) + 1 := by omega
    rw [hl]
    show toHexBE (w1 + w2) (n / 16) ++ [hexChar (n % 16)] = _
    rw [ih (n / 16)]
    have h1 : n / 16 / 16 ^ w2 = n / 16 ^ (w2 + 1) := by
      rw [Nat.div_div_eq_div_mul, pow_succ']
    have h2 : n / 16 % 16 ^ w2 = n % 16 ^ (w2 + 1) / 16 := by
      rw [pow_succ', Nat.mod_mul_right_div_self]
    have h3 : n % 16 = n % 16 ^ (w2 + 1) % 16 := by
      rw [Nat.mod_mod_of_dvd n (dvd_pow_self 16 (Nat.succ_ne_zero w2))]
    rw [h1, h2, h3]
    show _ = toHexBE w1 (n / 16 ^ (w2 + 1)) ++ (toHexBE w2 (n % 16 ^ (w2 + 1) / 16) ++ [hexChar (n % 16 ^ (w2 + 1) % 16)])
    rw [List.append_assoc]

theorem toHexBE_headD : ∀ (w n : Nat), (toHexBE (w + 1) n).headD '0' = hexChar (n / 16 ^ w % 16) := by
  intro w
  induction w with
  | zero => intro n; simp [toHexBE, Nat.pow_zero, Nat.div_one]
  | succ w ih =>
    intro n
    show ((toHexBE (w + 1) (n / 16)) ++ [hexChar (n % 16)]).headD '0' = _
    rw [headD_append_ne_nil (toHexBE_ne_nil (w + 1) (n / 16) (Nat.succ_pos w))]
    rw [ih (n / 16)]
    rw [Nat.div_div_eq_div_mul, ← pow_succ']

/-! ### The version and variant fields forced by `uuid4` -/

theorem uuid4Int_version (r : Nat) : uuid4Int r / 2 ^ 76 % 16 = 4 := by
  unfold uuid4Int setNib
  omega

theorem uuid4Int_variant (r : Nat) :
    8 ≤ uuid4Int r / 2 ^ 60 % 16 ∧ uuid4Int r / 2 ^ 60 % 16 < 12 := by
  unfold uuid4Int setNib
  omega

theorem drop_append_len_add {α : Type} {a b : List α} {n k : Nat} (h : a.length = n) :
    (a ++ b).drop (n + k) = b.drop k := by
  subst h
  induction a with
  | nil => simp
  | cons x xs ih =>
    have e : xs.length + 1 + k = (xs.length + k) + 1 := by omega
    simp only [List.cons_append, List.length_cons, e, List.drop_succ_cons]
    exact ih

theorem append5_slices {A B C D F : List Char} (hA : A.length = 8) (hB : B.length = 4)
    (hC : C.length = 4) (hD : D.length = 4) :
    (A ++ (B ++ (C ++ (D ++ F)))).take 8 = A ∧
    ((A ++ (B ++ (C ++ (D ++ F)))).drop 8).take 4 = B ∧
    ((A ++ (B ++ (C ++ (D ++ F)))).drop 12).take 4 = C ∧
    ((A ++ (B ++ (C ++ (D ++ F)))).drop 16).take 4 = D ∧
    (A ++ (B ++ (C ++ (D ++ F)))).drop 20 = F := by
  have d8 : (A ++ (B ++ (C ++ (D ++ F)))).drop 8 = B ++ (C ++ (D ++ F)) :=
    drop_append_len hA
  have d12 : (A ++ (B ++ (C ++ (D ++ F)))).drop 12 = C ++ (D ++ F) := by
    have e : (A ++ (B ++ (C ++ (D ++ F)))).drop (8 + 4) = C ++ (D ++ F) := by
      rw [drop_append_len_add hA, drop_append_len hB]
    exact e
  have d16 : (A ++ (B ++ (C ++ (D ++ F)))).drop 16 = D ++ F := by
    have e : (A ++ (B ++ (C ++ (D ++ F)))).drop (8 + 8) = D ++ F := by
      rw [drop_append_len_add hA]
      have e2 : (B ++ (C ++ (D ++ F))).drop (4 + 4) = D ++ F := by
        rw [drop_append_len_add hB, drop_append_len hC]
      exact e2
    exact e
  have d20 : (A ++ (B ++ (C ++ (D ++ F)))).drop 20 = F := by
    have e : (A ++ (B ++ (C ++ (D ++ F)))).drop (8 + 12) = F := by
      rw [drop_append_len_add hA]
      have e2 : (B ++ (C ++ (D ++ F))).drop (4 + 8) = F := by
        rw [drop_append_len_add hB]
        have e3 : (C ++ (D ++ F)).drop (4 + 4) = F := by
          rw [drop_append_len_add hC, drop_append_len hD]
        exact e3
      exact e2
    exact e
  refine ⟨take_append_len hA, ?_, ?_, ?_, d20⟩
  · rw [d8]; exact take_append_len hB
  · rw [d12]; exact take_append_len hC
  · rw [d16]; exact take_append_len hD

theorem uuidStr_decomp (i : Nat) :
    uuidStr i =
      toHexBE 8 (i / 16 ^ 24) ++ '-' :: (toHexBE 4 (i / 16 ^ 20 % 16 ^ 4) ++
        '-' :: (toHexBE 4 (i / 16 ^ 16 % 16 ^ 4) ++
          '-' :: (toHexBE 4 (i / 16 ^ 12 % 16 ^ 4) ++
            '-' :: toHexBE 12 (i % 16 ^ 12)))) := by
  have e32 : toHexBE 32 i = toHexBE 8 (i / 16 ^ 24) ++ toHexBE 24 (i % 16 ^ 24) :=
    toHexBE_split 8 24 i
  have e24 : toHexBE 24 (i % 16 ^ 24) =
      toHexBE 4 (i % 16 ^ 24 / 16 ^ 20) ++ toHexBE 20 (i % 16 ^ 24 % 16 ^ 20) :=
    toHexBE_split 4 20 (i % 16 ^ 24)
  have e20 : toHexBE 20 (i % 16 ^ 20) =
      toHexBE 4 (i % 16 ^ 20 / 16 ^ 16) ++ toHexBE 16 (i % 16 ^ 20 % 16 ^ 16) :=
    toHexBE_split 4 16 (i % 16 ^ 20)
  have e16 : toHexBE 16 (i % 16 ^ 16) =
      toHexBE 4 (i % 16 ^ 16 / 16 ^ 12) ++ toHexBE 12 (i % 16 ^ 16 % 16 ^ 12) :=
    toHexBE_split 4 12 (i % 16 ^ 16)
  rw [show i % 16 ^ 24 / 16 ^ 20 = i / 16 ^ 20 % 16 ^ 4 from by
        rw [show (16 : Nat) ^ 24 = 16 ^ 20 * 16 ^ 4 from by norm_num,
          Nat.mod_mul_right_div_self],
      show i % 16 ^ 24 % 16 ^ 20 = i % 16 ^ 20 from
        Nat.mod_mod_of_dvd i (pow_dvd_pow 16 (by norm_num))] at e24
  rw [show i % 16 ^ 20 / 16 ^ 16 = i / 16 ^ 16 % 16 ^ 4 from by
        rw [show (16 : Nat) ^ 20 = 16 ^ 16 * 16 ^ 4 from by norm_num,
          Nat.mod_mul_right_div_self],
      show i % 16 ^ 20 % 16 ^ 16 = i % 16 ^ 16 from
        Nat.mod_mod_of_dvd i (pow_dvd_pow 16 (by norm_num))] at e20
  rw [show i % 16 ^ 16 / 16 ^ 12 = i / 16 ^ 12 % 16 ^ 4 from by
        rw [show (16 : Nat) ^ 16 = 16 ^ 12 * 16 ^ 4 from by norm_num,
          Nat.mod_mul_right_div_self],
      show i % 16 ^ 16 % 16 ^ 12 = i % 16 ^ 12 from
        Nat.mod_mod_of_dvd i (pow_dvd_pow 16 (by norm_num))] at e16
  have eFull : toHexBE 32 i =
      toHexBE 8 (i / 16 ^ 24) ++ (toHexBE 4 (i / 16 ^ 20 % 16 ^ 4) ++
        (toHexBE 4 (i / 16 ^ 16 % 16 ^ 4) ++ (toHexBE 4 (i / 16 ^ 12 % 16 ^ 4) ++
          toHexBE 12 (i % 16 ^ 12)))) := by
    rw [e32, e24, e20, e16]
  obtain ⟨s1, s2, s3, s4, s5⟩ :=
    append5_slices (A := toHexBE 8 (i / 16 ^ 24)) (B := toHexBE 4 (i / 16 ^ 20 % 16 ^ 4))
      (C := toHexBE 4 (i / 16 ^ 16 % 16 ^ 4)) (D := toHexBE 4 (i / 16 ^ 12 % 16 ^ 4))
      (F := toHexBE 12 (i % 16 ^ 12)) (toHexBE_length 8 _) (toHexBE_length 4 _)
      (toHexBE_length 4 _) (toHexBE_length 4 _)
  show (toHexBE 32 i).take 8 ++ '-' :: (((toHexBE 32 i).drop 8).take 4 ++
    '-' :: (((toHexBE 32 i).drop 12).take 4 ++ '-' :: (((toHexBE 32 i).drop 16).take 4 ++
      '-' :: (toHexBE 32 i).drop 20))) = _
  rw [eFull, s1, s2, s3, s4, s5]

/-! ### The canonical hyphenated shape: membership, parsing, acceptance -/

theorem canon_mem {G1 G2 G3 G4 G5 : List Char}
    (hg : ∀ c ∈ G1 ++ G2 ++ G3 ++ G4 ++ G5, c ∈ lowerHexChars) :
    ∀ c ∈ G1 ++ '-' :: (G2 ++ '-' :: (G3 ++ '-' :: (G4 ++ '-' :: G5))),
      c = '-' ∨ c ∈ lowerHexChars := by
  intro c hc
  simp only [List.mem_append, List.mem_cons] at hc
  rcases hc with h | h | h | h | h | h | h | h | h
  · exact Or.inr (hg c (by simp [List.mem_append, h]))
  · exact Or.inl h
  · exact Or.inr (hg c (by simp [List.mem_append, h]))
  · exact Or.inl h
  · exact Or.inr (hg c (by simp [List.mem_append, h]))
  · exact Or.inl h
  · exact Or.inr (hg c (by simp [List.mem_append, h]))
  · exact Or.inl h
  · exact Or.inr (hg c (by simp [List.mem_append, h]))

theorem headD_irrel {l : List Char} (d d' : Char) (h : l ≠ []) :
    l.headD d = l.headD d' := by
  cases l with
  | nil => exact absurd rfl h
  | cons x xs => rfl

theorem hexTail_of_all {l : List Char}
    (h : ∀ c ∈ l, isHexDigitChar c = true ∧ c ≠ '_') : hexTail l = true := by
  induction l with
  | nil => rfl
  | cons c rest ih =>
    have hc := h c (List.mem_cons_self c rest)
    cases rest with
    | nil => simp only [hexTail]; exact hc.1
    | cons d rest2 =>
      have hne : (c == '_') = false := by
        simp only [beq_eq_false_iff_ne, ne_eq]
        exact hc.2
      simp only [hexTail, hne, Bool.false_eq_true, if_false, hc.1, Bool.true_and]
      exact ih fun a ha => h a (List.mem_cons_of_mem c ha)

theorem hexDigitsOk_of_all {l : List Char} (hne : l ≠ [])
    (h : ∀ c ∈ l, isHexDigitChar c = true ∧ c ≠ '_') : hexDigitsOk l = true := by
  cases l with
  | nil => exact absurd rfl hne
  | cons c rest =>
    simp only [hexDigitsOk, (h c (List.mem_cons_self c rest)).1, Bool.true_and]
    exact hexTail_of_all fun a ha => h a (List.mem_cons_of_mem c ha)

theorem pyIntHex_of_lowerHex {l : List Char} (hlen : 2 ≤ l.length)
    (h : ∀ c ∈ l, c ∈ lowerHexChars) : pyIntHex16Valid l = true := by
  cases l with
  | nil => simp at hlen
  | cons c1 l1 =>
    cases l1 with
    | nil => simp at hlen
    | cons c2 rest =>
      have hc1 := lowerHex_facts c1 (h c1 (by simp))
      have hc2 := lowerHex_facts c2 (h c2 (by simp))
      have hws : stripEnds pyIsWs (c1 :: c2 :: rest) = c1 :: c2 :: rest :=
        stripEnds_no_op fun c hc => (lowerHex_facts c (h c hc)).2.1
      have hsign : dropSign (c1 :: c2 :: rest) = c1 :: c2 :: rest := by
        have h1 : (c1 == '+') = false := by
          simp only [beq_eq_false_iff_ne, ne_eq]; exact hc1.2.2.2.2.2.2.1
        have h2 : (c1 == '-') = false := by
          simp only [beq_eq_false_iff_ne, ne_eq]; exact hc1.2.2.2.2.1
        simp [dropSign, h1, h2]
      have hbase : hasHexBase (c1 :: c2 :: rest) = false := by
        have h1 : (c2 == 'x') = false := by
          simp only [beq_eq_false_iff_ne, ne_eq]; exact hc2.2.2.2.2.2.2.2.1
        have h2 : (c2 == 'X') = false := by
          simp only [beq_eq_false_iff_ne, ne_eq]; exact hc2.2.2.2.2.2.2.2.2.1
        simp [hasHexBase, h1, h2]
      have hdig : hexDigitsOk (c1 :: c2 :: rest) = true :=
        hexDigitsOk_of_all (by simp) fun c hc =>
          ⟨(lowerHex_facts c (h c hc)).1, (lowerHex_facts c (h c hc)).2.2.2.2.2.2.2.2.2⟩
      simp only [pyIntHex16Valid, hws, hsign, hbase, Bool.false_eq_true, if_false, hdig]

theorem pyUuidAccepts_canon {G1 G2 G3 G4 G5 : List Char}
    (h1 : G1.length = 8) (h2 : G2.length = 4) (h3 : G3.length = 4) (h4 : G4.length = 4)
    (h5 : G5.length = 12)
    (hg : ∀ c ∈ G1 ++ G2 ++ G3 ++ G4 ++ G5, c ∈ lowerHexChars) :
    pyUuidAccepts (G1 ++ '-' :: (G2 ++ '-' :: (G3 ++ '-' :: (G4 ++ '-' :: G5)))) = true := by
  have hmem := canon_mem hg
  have hcolon : ':' ∉ G1 ++ '-' :: (G2 ++ '-' :: (G3 ++ '-' :: (G4 ++ '-' :: G5))) := by
    intro hc
    rcases hmem ':' hc with h | h
    · exact absurd h (by decide)
    · exact (lowerHex_facts ':' h).2.2.2.1 rfl
  have e1 : removeSub urnChars (G1 ++ '-' :: (G2 ++ '-' :: (G3 ++ '-' :: (G4 ++ '-' :: G5)))) =
      G1 ++ '-' :: (G2 ++ '-' :: (G3 ++ '-' :: (G4 ++ '-' :: G5))) :=
    removeSub_no_op ⟨':', by decide, hcolon⟩
  have e2 : removeSub uuidMarkChars (G1 ++ '-' :: (G2 ++ '-' :: (G3 ++ '-' :: (G4 ++ '-' :: G5)))) =
      G1 ++ '-' :: (G2 ++ '-' :: (G3 ++ '-' :: (G4 ++ '-' :: G5))) :=
    removeSub_no_op ⟨':', by decide, hcolon⟩
  have e3 : stripEnds isBrace (G1 ++ '-' :: (G2 ++ '-' :: (G3 ++ '-' :: (G4 ++ '-' :: G5)))) =
      G1 ++ '-' :: (G2 ++ '-' :: (G3 ++ '-' :: (G4 ++ '-' :: G5))) := by
    apply stripEnds_no_op
    intro c hc
    rcases hmem c hc with h | h
    · rw [h]; decide
    · exact (lowerHex_facts c h).2.2.1
  have hfil : ∀ (G : List Char), (∀ c ∈ G, c ∈ lowerHexChars) →
      G.filter (fun c => !(c == '-')) = G := by
    intro G hG
    apply List.filter_eq_self.mpr
    intro a ha
    simp only [Bool.not_eq_true', beq_eq_false_iff_ne, ne_eq]
    exact (lowerHex_facts a (hG a ha)).2.2.2.2.1
  have e4 : removeSub ['-'] (G1 ++ '-' :: (G2 ++ '-' :: (G3 ++ '-' :: (G4 ++ '-' :: G5)))) =
      G1 ++ G2 ++ G3 ++ G4 ++ G5 := by
    rw [removeSub_singleton]
    have m1 : ∀ c ∈ G1, c ∈ lowerHexChars := fun c hc => hg c (by simp [hc])
    have m2 : ∀ c ∈ G2, c ∈ lowerHexChars := fun c hc => hg c (by simp [hc])
    have m3 : ∀ c ∈ G3, c ∈ lowerHexChars := fun c hc => hg c (by simp [hc])
    have m4 : ∀ c ∈ G4, c ∈ lowerHexChars := fun c hc => hg c (by simp [hc])
    have m5 : ∀ c ∈ G5, c ∈ lowerHexChars := fun c hc => hg c (by simp [hc])
    simp only [List.filter_append, List.filter_cons, beq_self_eq_true, Bool.not_true,
      Bool.false_eq_true, if_false, hfil G1 m1, hfil G2 m2, hfil G3 m3, hfil G4 m4, hfil G5 m5]
    simp [List.append_assoc]
  have hlen : (G1 ++ G2 ++ G3 ++ G4 ++ G5).length = 32 := by
    simp [h1, h2, h3, h4, h5]
  have hcat : ∀ c ∈ G1 ++ G2 ++ G3 ++ G4 ++ G5, c ∈ lowerHexChars := hg
  simp only [pyUuidAccepts, e1, e2, e3, e4, hlen]
  simp only [beq_self_eq_true, Bool.true_and]
  exact pyIntHex_of_lowerHex (by rw [hlen]; norm_num) hcat

theorem specUuid4_canon {G1 G2 G3 G4 G5 : List Char}
    (h1 : G1.length = 8) (h2 : G2.length = 4) (h3 : G3.length = 4) (h4 : G4.length = 4)
    (h5 : G5.length = 12)
    (hg : ∀ c ∈ G1 ++ G2 ++ G3 ++ G4 ++ G5, c ∈ lowerHexChars)
    (hh3 : G3.headD ' ' = '4')
    (hh4 : G4.headD ' ' = '8' ∨ G4.headD ' ' = '9' ∨ G4.headD ' ' = 'a' ∨ G4.headD ' ' = 'b') :
    specUuid4 (G1 ++ '-' :: (G2 ++ '-' :: (G3 ++ '-' :: (G4 ++ '-' :: G5)))) = true := by
  have hnd : ∀ (G : List Char), (∀ c ∈ G, c ∈ lowerHexChars) → ∀ a ∈ G, a ≠ '-' :=
    fun G hG a ha => (lowerHex_facts a (hG a ha)).2.2.2.2.1
  have m1 : ∀ c ∈ G1, c ∈ lowerHexChars := fun c hc => hg c (by simp [List.mem_append, hc])
  have m2 : ∀ c ∈ G2, c ∈ lowerHexChars := fun c hc => hg c (by simp [List.mem_append, hc])
  have m3 : ∀ c ∈ G3, c ∈ lowerHexChars := fun c hc => hg c (by simp [List.mem_append, hc])
  have m4 : ∀ c ∈ G4, c ∈ lowerHexChars := fun c hc => hg c (by simp [List.mem_append, hc])
  have m5 : ∀ c ∈ G5, c ∈ lowerHexChars := fun c hc => hg c (by simp [List.mem_append, hc])
  have hs : splitOnCh '-' (G1 ++ '-' :: (G2 ++ '-' :: (G3 ++ '-' :: (G4 ++ '-' :: G5)))) =
      [G1, G2, G3, G4, G5] := by
    rw [splitOnCh_append, splitOnCh_append, splitOnCh_append, splitOnCh_append,
      splitOnCh_no_sep (hnd G1 m1), splitOnCh_no_sep (hnd G2 m2), splitOnCh_no_sep (hnd G3 m3),
      splitOnCh_no_sep (hnd G4 m4), splitOnCh_no_sep (hnd G5 m5)]
    rfl
  have hall : (G1 ++ G2 ++ G3 ++ G4 ++ G5).all isLowerHex = true :=
    List.all_eq_true.mpr fun c hc => isLowerHex_iff.mpr (hg c hc)
  simp only [specUuid4, hs, h1, h2, h3, h4, h5, hall, hh3, beq_self_eq_true, Bool.true_and,
    Bool.and_true]
  rcases hh4 with h | h | h | h <;> rw [h] <;> decide

theorem pyAccepts_of_specUuid4 {t : List Char} (h : specUuid4 t = true) :
    pyUuidAccepts t = true := by
  unfold specUuid4 at h
  split at h
  case h_2 => simp at h
  case h_1 g1 g2 g3 g4 g5 heq =>
    simp only [Bool.and_eq_true, beq_iff_eq] at h
    obtain ⟨⟨⟨⟨⟨⟨⟨hl1, hl2⟩, hl3⟩, hl4⟩, hl5⟩, hall⟩, hh3⟩, hh4⟩ := h
    have hjoin := joinCh_splitOnCh '-' t
    rw [heq] at hjoin
    simp only [joinCh] at hjoin
    have hg : ∀ c ∈ g1 ++ g2 ++ g3 ++ g4 ++ g5, c ∈ lowerHexChars := fun c hc =>
      isLowerHex_iff.mp (List.all_eq_true.mp hall c hc)
    rw [← hjoin]
    exact pyUuidAccepts_canon hl1 hl2 hl3 hl4 hl5 hg

/-! ### Properties of the generated request id -/

theorem specUuid4_gen (r : Nat) : specUuid4 (generateRequestId r) = true := by
  unfold generateRequestId
  rw [uuidStr_decomp]
  apply specUuid4_canon (toHexBE_length 8 _) (toHexBE_length 4 _) (toHexBE_length 4 _)
    (toHexBE_length 4 _) (toHexBE_length 12 _)
  · intro c hc
    simp only [List.mem_append] at hc
    rcases hc with (((h | h) | h) | h) | h <;> exact toHexBE_mem _ _ c h
  · have hne := toHexBE_ne_nil 4 (uuid4Int r / 16 ^ 16 % 16 ^ 4) (by norm_num)
    rw [headD_irrel ' ' '0' hne]
    have hh : (toHexBE 4 (uuid4Int r / 16 ^ 16 % 16 ^ 4)).headD '0' =
        hexChar (uuid4Int r / 16 ^ 16 % 16 ^ 4 / 16 ^ 3 % 16) := toHexBE_headD 3 _
    rw [hh]
    have ha : uuid4Int r / 16 ^ 16 % 16 ^ 4 / 16 ^ 3 % 16 = uuid4Int r / 2 ^ 76 % 16 := by
      rw [show (16 : Nat) ^ 4 = 16 ^ 3 * 16 from by norm_num, Nat.mod_mul_right_div_self,
        Nat.mod_mod_of_dvd _ (dvd_refl 16), Nat.div_div_eq_div_mul]
      norm_num
    rw [ha, uuid4Int_version]
    decide
  · have hne := toHexBE_ne_nil 4 (uuid4Int r / 16 ^ 12 % 16 ^ 4) (by norm_num)
    rw [headD_irrel ' ' '0' hne]
    have hh : (toHexBE 4 (uuid4Int r / 16 ^ 12 % 16 ^ 4)).headD '0' =
        hexChar (uuid4Int r / 16 ^ 12 % 16 ^ 4 / 16 ^ 3 % 16) := toHexBE_headD 3 _
    rw [hh]
    have ha : uuid4Int r / 16 ^ 12 % 16 ^ 4 / 16 ^ 3 % 16 = uuid4Int r / 2 ^ 60 % 16 := by
      rw [show (16 : Nat) ^ 4 = 16 ^ 3 * 16 from by norm_num, Nat.mod_mul_right_div_self,
        Nat.mod_mod_of_dvd _ (dvd_refl 16), Nat.div_div_eq_div_mul]
      norm_num
    rw [ha]
    obtain ⟨hlo, hhi⟩ := uuid4Int_variant r
    set q := uuid4Int r / 2 ^ 60 % 16 with hq
    interval_cases q <;> decide

theorem pyUuidAccepts_gen (r : Nat) : pyUuidAccepts (generateRequestId r) = true :=
  pyAccepts_of_specUuid4 (specUuid4_gen r)

theorem requestIdUnique_gen (r : Nat) (uniqueValuePfx : Option (List Char)) :
    requestIdUnique (generateRequestId r) uniqueValuePfx = true := by
  unfold requestIdUnique
  rw [pyUuidAccepts_gen]
  simp

theorem gen_mem (r : Nat) : ∀ c ∈ generateRequestId r, c = '-' ∨ c ∈ lowerHexChars := by
  unfold generateRequestId
  rw [uuidStr_decomp]
  apply canon_mem
  intro c hc
  simp only [List.mem_append] at hc
  rcases hc with (((h | h) | h) | h) | h <;> exact toHexBE_mem _ _ c h

theorem gen_no_comma (r : Nat) : ∀ c ∈ generateRequestId r, c ≠ ',' := by
  intro c hc
  rcases gen_mem r c hc with h | h
  · rw [h]; decide
  · exact (lowerHex_facts c h).2.2.2.2.2.1

theorem splitComma_gen (r : Nat) :
    splitOnCh ',' (generateRequestId r) = [generateRequestId r] :=
  splitOnCh_no_sep (gen_no_comma r)

/-! ### Claim theorems -/

/-- C1: for every existing header value containing, after splitting on `,`,
at least one token classified unique in the claim's sense (valid version-4
UUID or containing the configured prefix value), `_compute_request_id_header`
returns the input string unchanged — no mutation, no reordering, no
deduplication. -/
theorem claim_C1_unique_passthrough (uniqueValuePfx : Option (List Char)) (r : Nat)
    (v : List Char) (h : ∃ t ∈ splitOnCh ',' v, claimUnique uniqueValuePfx t = true) :
    computeRequestIdHeader uniqueValuePfx r (some v) = v := by
  obtain ⟨t, ht, hu⟩ := h
  have hcode : requestIdUnique t uniqueValuePfx = true := by
    unfold claimUnique at hu
    unfold requestIdUnique
    cases hspec : specUuid4 t with
    | true => rw [pyAccepts_of_specUuid4 hspec]; simp
    | false =>
      rw [hspec] at hu
      simp only [Bool.false_or] at hu
      rw [hu]
      simp
  have hany : (splitOnCh ',' v).any (fun requestId => requestIdUnique requestId uniqueValuePfx) = true :=
    List.any_eq_true.mpr ⟨t, ht, hcode⟩
  simp [computeRequestIdHeader, hany]

/-- C1 witness: a single-token header consisting of one canonical version-4
UUID is passed through unchanged. -/
theorem claim_C1_unique_passthrough_witness :
    (∃ t ∈ splitOnCh ',' sampleUuid4, claimUnique none t = true) ∧
    computeRequestIdHeader none 0 (some sampleUuid4) = sampleUuid4 :=
  ⟨by decide, claim_C1_unique_passthrough none 0 sampleUuid4 (by decide)⟩

/-- C2: the claim requires appending a generated token whenever no token is a
valid version-4 UUID (or contains the prefix); the code instead returns the
input unchanged on `00000000-0000-1000-8000-000000000000` — a version-1 UUID,
hence not claim-unique under the absent prefix — because Python's
`UUID(x, version=4)` does not validate the version.  Each conjunct evaluates
the embedded code at that failing input. -/
theorem claim_C2_append_version_bug :
    (splitOnCh ',' sampleV1Uuid).any (fun t => claimUnique none t) = false ∧
    computeRequestIdHeader none 0 (some sampleV1Uuid) = sampleV1Uuid := by
  exact ⟨by decide, by decide⟩

/-- C3 counterexample: with the empty string configured as the prefix, the
token `x` — not a UUID under any reading — is classified unique, while the
same token under an absent prefix is not; so emptiness of the prefix alone
flips the classification, contradicting the claim that an empty prefix
disables the prefix rule. -/
theorem claim_C3_empty_pfx_cex :
    requestIdUnique ['x'] (some []) = true ∧ pyUuidAccepts ['x'] = false ∧
    requestIdUnique ['x'] none = false := by
  exact ⟨by decide, by decide, by decide⟩

/-- C3 amended: rule (a) is disabled only when the configured prefix is
absent (`None`), in which case uniqueness is decided solely by the UUID
test; when the prefix is the EMPTY STRING, every token is classified unique,
because Python's `'' in s` is always true. -/
theorem claim_C3_amended (t : List Char) :
    requestIdUnique t none = pyUuidAccepts t ∧ requestIdUnique t (some []) = true := by
  constructor
  · simp [requestIdUnique]
  · simp [requestIdUnique, containsSub_nil]

/-- C4: the claim (and the middleware's own docstring) state that, absent a
prefix match, a token is unique iff it is a syntactically valid version-4
UUID in canonical form; the code accepts the version-1 UUID
`00000000-0000-1000-8000-000000000000` and the hyphen-free string of 32
zeros, neither of which is a canonical version-4 UUID, because
`UUID(x, version=4)` overwrites rather than validates the version bits and
normalizes non-canonical forms. -/
theorem claim_C4_version_check_bug :
    requestIdUnique sampleV1Uuid none = true ∧ specUuid4 sampleV1Uuid = false ∧
    requestIdUnique sampleZeros32 none = true ∧ specUuid4 sampleZeros32 = false := by
  exact ⟨by decide, by decide, by decide, by decide⟩

/-- C5 counterexample: with an absent prefix and the single non-UUID token
`x`, the first application appends a generated token (output length 38), but
a second application — even with fresh entropy — returns its input unchanged,
refuting the claim that each re-application appends another token. -/
theorem claim_C5_not_idempotent_cex :
    (splitOnCh ',' ['x']).any (fun t => pyUuidAccepts t) = false ∧
    (computeRequestIdHeader none 0 (some ['x'])).length = 38 ∧
    computeRequestIdHeader none 1 (some (computeRequestIdHeader none 0 (some ['x']))) =
      computeRequestIdHeader none 0 (some ['x']) := by
  exact ⟨by decide, by decide, by decide⟩

/-- C5 amended: reconciliation IS idempotent for every configuration, every
entropy pair and every input (present or absent): the token appended by a
first application is itself a generated version-4 UUID and is therefore
classified unique on re-application, so the value is returned unchanged. -/
theorem claim_C5_amended_idempotent (uniqueValuePfx : Option (List Char)) (r1 r2 : Nat)
    (headerValue : Option (List Char)) :
    computeRequestIdHeader uniqueValuePfx r2
        (some (computeRequestIdHeader uniqueValuePfx r1 headerValue)) =
      computeRequestIdHeader uniqueValuePfx r1 headerValue := by
  cases headerValue with
  | none =>
    show computeRequestIdHeader uniqueValuePfx r2 (some (generateRequestId r1)) =
      generateRequestId r1
    have hany : (splitOnCh ',' (generateRequestId r1)).any
        (fun requestId => requestIdUnique requestId uniqueValuePfx) = true := by
      rw [splitComma_gen]
      simp [requestIdUnique_gen]
    simp [computeRequestIdHeader, hany]
  | some v =>
    cases hany : (splitOnCh ',' v).any (fun requestId => requestIdUnique requestId uniqueValuePfx) with
    | true => simp [computeRequestIdHeader, hany]
    | false =>
      have h1 : computeRequestIdHeader uniqueValuePfx r1 (some v) =
          v ++ ',' :: generateRequestId r1 := by
        simp [computeRequestIdHeader, hany]
      rw [h1]
      have hany2 : (splitOnCh ',' (v ++ ',' :: generateRequestId r1)).any
          (fun requestId => requestIdUnique requestId uniqueValuePfx) = true := by
        rw [splitOnCh_append, splitComma_gen]
        simp [List.any_append, requestIdUnique_gen]
      simp [computeRequestIdHeader, hany2]

/-- C6: with no inbound header the computed value is exactly the generated
id, which splits into a single token (it contains no comma) and is a valid
version-4 UUID in canonical lowercase hyphenated form; the configured prefix
is ignored (the statement holds for every prefix value). -/
theorem claim_C6_absent_header (uniqueValuePfx : Option (List Char)) (r : Nat) :
    computeRequestIdHeader uniqueValuePfx r none = generateRequestId r ∧
    splitOnCh ',' (generateRequestId r) = [generateRequestId r] ∧
    specUuid4 (generateRequestId r) = true :=
  ⟨rfl, splitComma_gen r, specUuid4_gen r⟩

/-- C7 counterexample: with the empty string configured as prefix and the
inbound header `x`, the code returns `x` unchanged, and the output contains
no token that is unique in the spec's sense (valid version-4 UUID or
containing a NON-EMPTY configured prefix). -/
theorem claim_C7_output_unique_cex :
    (splitOnCh ',' (computeRequestIdHeader (some []) 0 (some ['x']))).any
      (fun t => specUniqueToken (some []) t) = false := by
  decide

/-- C7 amended: for every configuration, entropy and input, the output of
`_compute_request_id_header` contains at least one token that the code
itself classifies unique (`_request_id_unique`): accepted by Python's UUID
parse, or containing the configured prefix value when it is not `None`
(including the degenerate empty prefix). -/
theorem claim_C7_amended_invariant (uniqueValuePfx : Option (List Char)) (r : Nat)
    (headerValue : Option (List Char)) :
    (splitOnCh ',' (computeRequestIdHeader uniqueValuePfx r headerValue)).any
      (fun t => requestIdUnique t uniqueValuePfx) = true := by
  cases headerValue with
  | none =>
    show (splitOnCh ',' (generateRequestId r)).any _ = true
    rw [splitComma_gen]
    simp [requestIdUnique_gen]
  | some v =>
    cases hany : (splitOnCh ',' v).any (fun requestId => requestIdUnique requestId uniqueValuePfx) with
    | true =>
      simp only [computeRequestIdHeader, hany, if_true]
    | false =>
      have h1 : computeRequestIdHeader uniqueValuePfx r (some v) =
          v ++ ',' :: generateRequestId r := by
        simp [computeRequestIdHeader, hany]
      rw [h1, splitOnCh_append, splitComma_gen]
      simp [List.any_append, requestIdUnique_gen]

/-- C8: an empty existing header value is a single empty token, which is not
unique when the configured prefix is absent or non-empty, so the result is a
leading comma followed by the generated token. -/
theorem claim_C8_empty_header (uniqueValuePfx : Option (List Char)) (r : Nat)
    (h : uniqueValuePfx ≠ some []) :
    computeRequestIdHeader uniqueValuePfx r (some []) = ',' :: generateRequestId r := by
  have hu : requestIdUnique [] uniqueValuePfx = false := by
    unfold requestIdUnique
    have hpy : pyUuidAccepts [] = false := by decide
    rw [hpy]
    cases uniqueValuePfx with
    | none => rfl
    | some p =>
      cases p with
      | nil => exact absurd rfl h
      | cons a ps => simp [containsSub]
  simp [computeRequestIdHeader, splitOnCh, hu]

/-- C8 witness: with the one-character prefix `T` the empty header value
becomes a comma followed by the generated token. -/
theorem claim_C8_empty_header_witness :
    (some ['T'] : Option (List Char)) ≠ some [] ∧
    computeRequestIdHeader (some ['T']) 0 (some []) = ',' :: generateRequestId 0 :=
  ⟨by decide, claim_C8_empty_header (some ['T']) 0 (by decide)⟩

/-- C9: `__call__` computes the request id header once from the inbound
environ value, stores it in the environ, and hands the wrapped application a
callback that, on EVERY invocation — for every status, every header list and
every exc_info, error responses included — appends exactly the one pair
`(X-Request-ID, computed value)` to the response headers before delegating
to the host's `start_response`. -/
theorem claim_C9_response_header (σ ρ ε : Type) (st : RequestIDState) (r : Nat)
    (app : (List Char → Option (List Char)) →
      (List Char → List (List Char × List Char) → ε → σ) → ρ)
    (environ : List Char → Option (List Char))
    (startResponse : List Char → List (List Char × List Char) → ε → σ) :
    RequestID.call st r app environ startResponse =
      app (fun k => if k = st.flaskHeaderName
            then some (computeRequestIdHeader st.uniqueValuePfx r (environ st.flaskHeaderName))
            else environ k)
        (newStartResponse st.headerName
          (computeRequestIdHeader st.uniqueValuePfx r (environ st.flaskHeaderName))
          startResponse) ∧
    (∀ (status : List Char) (responseHeaders : List (List Char × List Char)) (excInfo : ε),
      newStartResponse st.headerName
          (computeRequestIdHeader st.uniqueValuePfx r (environ st.flaskHeaderName))
          startResponse status responseHeaders excInfo =
        startResponse status
          (responseHeaders ++
            [(st.headerName, computeRequestIdHeader st.uniqueValuePfx r (environ st.flaskHeaderName))])
          excInfo) :=
  ⟨rfl, fun _ _ _ => rfl⟩

/-- C10: constructing the middleware reads the config key
`REQUEST_ID_UNIQUE_VALUE_PREFIX` with mandatory-key semantics: a missing key
raises `KeyError` (embedded as `Except.error`), while any present value —
`None` included — yields the initialized state. -/
theorem claim_C10_config_key (config : List Char → Option (Option (List Char))) :
    (config configKeyChars = none → RequestID.init config = Except.error ()) ∧
    (∀ v, config configKeyChars = some v →
      RequestID.init config = Except.ok
        { uniqueValuePfx := v, headerName := headerNameChars,
          flaskHeaderName := flaskHeaderNameOf headerNameChars }) := by
  constructor
  · intro h
    unfold RequestID.init
    rw [h]
  · intro v h
    unfold RequestID.init
    rw [h]

/-- C10 witness: the empty config errors; a config carrying the prefix
`TEST-` under the key succeeds with that prefix stored. -/
theorem claim_C10_config_key_witness :
    RequestID.init (fun _ => none) = Except.error () ∧
    RequestID.init (fun k => if k = configKeyChars
        then some (some ['T', 'E', 'S', 'T', '-']) else none) =
      Except.ok
        { uniqueValuePfx := some ['T', 'E', 'S', 'T', '-'], headerName := headerNameChars,
          flaskHeaderName := flaskHeaderNameOf headerNameChars } :=
  ⟨(claim_C10_config_key (fun _ => none)).1 rfl,
   (claim_C10_config_key _).2 (some ['T', 'E', 'S', 'T', '-']) (by simp)⟩
